import Mathlib

/-!
Shallow embedding of the concurrent media-compression pipeline in
compress_media.py: Python string helpers, a filesystem model, the
per-file processing function, the configuration prompt block, the
summary aggregator and the thread-pool concurrency bound.
-/

/-- ASCII whitespace test used by the model of Python str.strip(). -/
def isPySpace (c : Char) : Bool :=
  c == ' ' || c == '\t' || c == '\n' || c == '\r' || c == '\x0b' || c == '\x0c'

/-- Model of Python str.strip(): drop whitespace at both ends. -/
def pyStrip (s : String) : String :=
  String.mk (((s.data.dropWhile isPySpace).reverse.dropWhile isPySpace).reverse)

/-- ASCII lower-casing of one character, as str.lower() acts on the
ASCII paths and answers this program handles. -/
def asciiLower (c : Char) : Char :=
  if 65 ≤ c.toNat ∧ c.toNat ≤ 90 then Char.ofNat (c.toNat + 32) else c

/-- Model of Python str.lower() on ASCII strings. -/
def pyLower (s : String) : String :=
  String.mk (s.data.map asciiLower)

/-- ASCII decimal digit test. -/
def isAsciiDigit (c : Char) : Bool :=
  decide (48 ≤ c.toNat) && decide (c.toNat ≤ 57)

/-- Model of Python str.isdigit() on ASCII data: nonempty and all digits. -/
def pyIsdigit (s : String) : Bool :=
  !s.data.isEmpty && s.data.all isAsciiDigit

/-- Decimal value of a digit list (value of int(s) for a digit string). -/
def digitsVal (l : List Char) : Nat :=
  l.foldl (fun n c => 10 * n + (c.toNat - 48)) 0

/-- Model of Python int(s) for plain optionally-signed decimal strings:
returns none where int() raises ValueError. -/
def pyInt (s : String) : Option Int :=
  match (pyStrip s).data with
  | [] => none
  | '-' :: rest =>
      if rest ≠ [] ∧ rest.all isAsciiDigit then some (-(digitsVal rest : Int)) else none
  | '+' :: rest =>
      if rest ≠ [] ∧ rest.all isAsciiDigit then some (digitsVal rest : Int) else none
  | l => if l.all isAsciiDigit then some (digitsVal l : Int) else none

/-- Model of Python str.endswith: the last suffix-length characters
equal the suffix (false when the string is shorter than the suffix). -/
def pyEndsWith (s suffix : String) : Bool :=
  s.data.drop (s.data.length - suffix.data.length) == suffix.data

/-- Path separator test ('/' or '\'), as os.path handles both on Windows. -/
def isSep (c : Char) : Bool := c == '/' || c == '\\'

/-- Split a character list after its last path separator:
returns (directory part including the separator, basename part). -/
def splitLastSep : List Char → List Char × List Char
  | [] => ([], [])
  | c :: cs =>
    if cs.any isSep then (c :: (splitLastSep cs).1, (splitLastSep cs).2)
    else if isSep c then ([c], cs)
    else ([], c :: cs)

/-- Split a character list at its last dot, the dot going with the
second component; none when there is no dot. -/
def splitAtLastDot : List Char → Option (List Char × List Char)
  | [] => none
  | c :: cs =>
    match splitAtLastDot cs with
    | some p => some (c :: p.1, p.2)
    | none => if c == '.' then some ([], c :: cs) else none

/-- Model of os.path.splitext: the extension is everything from the last
dot of the basename, except that leading dots of the basename never
start an extension. -/
def splitext (s : String) : String × String :=
  match splitAtLastDot ((splitLastSep s.data).2.dropWhile (fun c => c == '.')) with
  | some p =>
      (String.mk ((splitLastSep s.data).1 ++
        (splitLastSep s.data).2.takeWhile (fun c => c == '.') ++ p.1),
       String.mk p.2)
  | none => (s, "")

/-- Model of os.path.basename. -/
def pyBasename (s : String) : String :=
  String.mk (splitLastSep s.data).2

/-- Model of os.path.join for the simple directory-plus-filename case. -/
def pathJoin (a b : String) : String :=
  a ++ "/" ++ b

/-- Filesystem timestamps of one file: creation, modification, access. -/
structure Times where
  ctime : Nat
  mtime : Nat
  atime : Nat
deriving DecidableEq

/-- Abstract file content: an original stream, or the result of running
the video or image encoder over some content. -/
inductive Content where
  | orig (id : Nat)
  | encVideo (src : Content) (vbr abr : Int) (codec : String)
  | encImage (src : Content) (quality : Int)
deriving DecidableEq

/-- One file's state: its byte content, the provenance of its embedded
metadata tags, and its filesystem timestamps. -/
structure FileData where
  content : Content
  tags : Content
  times : Times
deriving DecidableEq

/-- Filesystem model: association list from absolute path to file state. -/
abbrev Fs := List (String × FileData)

/-- Look a path up in the filesystem. -/
def fsGet : Fs → String → Option FileData
  | [], _ => none
  | e :: rest, p => if e.1 = p then some e.2 else fsGet rest p

/-- Write a path in the filesystem, replacing an existing entry. -/
def fsSet : Fs → String → FileData → Fs
  | [], p, d => [(p, d)]
  | e :: rest, p, d => if e.1 = p then (p, d) :: rest else e :: fsSet rest p d

/-- Remove a path from the filesystem. -/
def fsRemove : Fs → String → Fs
  | [], _ => []
  | e :: rest, p => if e.1 = p then rest else e :: fsRemove rest p

/-- The Python exception classes distinguished by the handlers in
compress_media.py: subprocess.CalledProcessError versus the OSError
family raised by process launch and filesystem calls. -/
inductive PyError where
  | calledProcessError
  | osError
deriving DecidableEq

/-- Result of one external-process invocation: exit 0, non-zero exit
(subprocess.run(check=True) raises CalledProcessError), or a failure to
launch the process at all (raises OSError). -/
inductive ProcResult where
  | ok
  | exitNonzero
  | launchFail
deriving DecidableEq

/-- Environment oracle for one process_file call: what the external
world does at each effect point. -/
structure Oracle where
  probeOut : Option String
  encodeResult : ProcResult
  exiftoolResult : ProcResult
  installOk : Bool
  now : Times

/-- Observable events of one process_file call, in program order.
copyTags records the content found at the tag-source path at the moment
ExifTool runs. -/
inductive Event where
  | probe (path : String) (kbps : Int)
  | encodeVideo (input temp codec : String)
  | encodeImage (input temp : String) (quality : Int)
  | copyTags (src dst : String) (srcContent : Content)
  | copyTagsFail (src dst : String)
  | install (src dst : String)
  | restoreTimes (src dst : String) (times : Times)
  | restoreTimesFail (src dst : String)
deriving DecidableEq

/-- Result of one internal step: new filesystem, pending uncaught
exception, events emitted. -/
abbrev StepR := Fs × Option PyError × List Event

/-- The configuration process_file receives from the prompt block. -/
structure Cfg where
  replace_original : Bool
  output_dir : String
  video_bitrate : Int
  audio_bitrate : Int
  jpg_quality : Int
  acceleration : String

/-- get_video_bitrate (compress_media.py lines 86-107): parse ffprobe
stdout; a digit string is converted bits-per-second to kbps by integer
division by 1000; anything else, including a raised exception (probeOut
none), yields 0. -/
def get_video_bitrate (probeOut : Option String) : Int :=
  match probeOut with
  | none => 0
  | some out =>
    if pyIsdigit (pyStrip out) then ((digitsVal (pyStrip out).data) / 1000 : Nat) else 0

/-- Codec and container tag chosen from the acceleration mode
(compress_media.py lines 117-125). -/
def codecFor (acceleration : String) : String × String :=
  if acceleration = "nvidia" then ("h264_nvenc", "avc1")
  else if acceleration = "intel" then ("h264_qsv", "avc1")
  else ("libx265", "hvc1")

/-- compress_video (lines 109-137): run ffmpeg into temp_output; on exit
0 the temp file holds the re-encoded stream with fresh timestamps; a
missing input or non-zero exit raises CalledProcessError, a launch
failure raises OSError. -/
def compress_video (orc : Oracle) (fs : Fs) (input_file temp_output : String)
    (video_bitrate audio_bitrate : Int) (acceleration : String) : StepR :=
  match orc.encodeResult with
  | ProcResult.ok =>
    match fsGet fs input_file with
    | some fd =>
        (fsSet fs temp_output
          { content := Content.encVideo fd.content video_bitrate audio_bitrate (codecFor acceleration).1,
            tags := fd.tags, times := orc.now },
         none, [Event.encodeVideo input_file temp_output (codecFor acceleration).1])
    | none => (fs, some PyError.calledProcessError,
        [Event.encodeVideo input_file temp_output (codecFor acceleration).1])
  | ProcResult.exitNonzero => (fs, some PyError.calledProcessError,
      [Event.encodeVideo input_file temp_output (codecFor acceleration).1])
  | ProcResult.launchFail => (fs, some PyError.osError,
      [Event.encodeVideo input_file temp_output (codecFor acceleration).1])

/-- copy_metadata (lines 73-84): run ExifTool copying all tags from
input_file to output_file in place; CalledProcessError is caught and
logged inside this function, a launch failure raises OSError. -/
def copy_metadata (orc : Oracle) (fs : Fs) (input_file output_file : String) : StepR :=
  match orc.exiftoolResult with
  | ProcResult.ok =>
    match fsGet fs input_file, fsGet fs output_file with
    | some srcFd, some dstFd =>
        (fsSet fs output_file { dstFd with tags := srcFd.tags }, none,
         [Event.copyTags input_file output_file srcFd.content])
    | _, _ => (fs, none, [Event.copyTagsFail input_file output_file])
  | ProcResult.exitNonzero => (fs, none, [Event.copyTagsFail input_file output_file])
  | ProcResult.launchFail => (fs, some PyError.osError,
      [Event.copyTagsFail input_file output_file])

/-- compress_and_preserve_metadata (lines 139-144): encode the video,
then copy metadata from the original onto the temp output. -/
def compress_and_preserve_metadata (cfg : Cfg) (orc : Oracle) (fs : Fs)
    (input_file temp_output : String) : StepR :=
  match compress_video orc fs input_file temp_output
      cfg.video_bitrate cfg.audio_bitrate cfg.acceleration with
  | (fs1, some err, t1) => (fs1, some err, t1)
  | (fs1, none, t1) =>
    match copy_metadata orc fs1 input_file temp_output with
    | (fs2, e2, t2) => (fs2, e2, t1 ++ t2)

/-- The ffmpeg single-frame image invocation inside compress_image
(lines 151-154). -/
def ffmpeg_image (orc : Oracle) (fs : Fs) (input_file temp_output : String)
    (quality : Int) : StepR :=
  match orc.encodeResult with
  | ProcResult.ok =>
    match fsGet fs input_file with
    | some fd =>
        (fsSet fs temp_output
          { content := Content.encImage fd.content quality, tags := fd.tags, times := orc.now },
         none, [Event.encodeImage input_file temp_output quality])
    | none => (fs, some PyError.calledProcessError,
        [Event.encodeImage input_file temp_output quality])
  | ProcResult.exitNonzero => (fs, some PyError.calledProcessError,
      [Event.encodeImage input_file temp_output quality])
  | ProcResult.launchFail => (fs, some PyError.osError,
      [Event.encodeImage input_file temp_output quality])

/-- compress_image (lines 146-155): encode one frame, then copy
metadata from the original onto the temp output. -/
def compress_image (orc : Oracle) (fs : Fs) (input_file temp_output : String)
    (quality : Int) : StepR :=
  match ffmpeg_image orc fs input_file temp_output quality with
  | (fs1, some err, t1) => (fs1, some err, t1)
  | (fs1, none, t1) =>
    match copy_metadata orc fs1 input_file temp_output with
    | (fs2, e2, t2) => (fs2, e2, t1 ++ t2)

/-- os.replace(src, dst): atomically move src over dst, overwriting;
the moved file keeps its own content, tags and timestamps. Raises
OSError on failure or a missing source. -/
def osReplace (orc : Oracle) (fs : Fs) (src dst : String) : StepR :=
  if orc.installOk then
    match fsGet fs src with
    | some fd => (fsSet (fsRemove fs src) dst fd, none, [Event.install src dst])
    | none => (fs, some PyError.osError, [])
  else (fs, some PyError.osError, [])

/-- os.rename(src, dst) on Windows: like os.replace but raises when the
destination already exists. -/
def osRename (orc : Oracle) (fs : Fs) (src dst : String) : StepR :=
  if orc.installOk then
    match fsGet fs src with
    | some fd =>
      match fsGet fs dst with
      | none => (fsSet (fsRemove fs src) dst fd, none, [Event.install src dst])
      | some _ => (fs, some PyError.osError, [])
    | none => (fs, some PyError.osError, [])
  else (fs, some PyError.osError, [])

/-- preserve_file_timestamps (lines 35-71): copy timestamps from src to
dst; every internal failure is caught, so this step never raises. -/
def preserve_file_timestamps (fs : Fs) (src dst : String) : Fs × List Event :=
  match fsGet fs src, fsGet fs dst with
  | some sfd, some dfd =>
      (fsSet fs dst { dfd with times := sfd.times }, [Event.restoreTimes src dst sfd.times])
  | _, _ => (fs, [Event.restoreTimesFail src dst])

/-- The install-then-restore tail of both success paths in process_file
(lines 174-178 and 184-188): os.replace over the original in replace
mode, else os.rename into the output directory, then
preserve_file_timestamps(input_file, output_file). -/
def installAndRestore (cfg : Cfg) (orc : Oracle) (fs : Fs)
    (temp_output input_file output_file : String) : StepR :=
  match (if cfg.replace_original then osReplace orc fs temp_output input_file
         else osRename orc fs temp_output output_file) with
  | (fs1, some err, t1) => (fs1, some err, t1)
  | (fs1, none, t1) =>
    match preserve_file_timestamps fs1 input_file output_file with
    | (fs2, t2) => (fs2, none, t1 ++ t2)

/-- The whole video success path: encode, copy tags, install, restore
timestamps (lines 173-178). -/
def videoJob (cfg : Cfg) (orc : Oracle) (fs : Fs)
    (input_file temp_output output_file : String) : StepR :=
  match compress_and_preserve_metadata cfg orc fs input_file temp_output with
  | (fs1, some err, t1) => (fs1, some err, t1)
  | (fs1, none, t1) =>
    match installAndRestore cfg orc fs1 temp_output input_file output_file with
    | (fs2, e2, t2) => (fs2, e2, t1 ++ t2)

/-- The whole image path: encode, copy tags, install, restore
timestamps (lines 183-188). -/
def imageJob (cfg : Cfg) (orc : Oracle) (fs : Fs)
    (input_file temp_output output_file : String) : StepR :=
  match compress_image orc fs input_file temp_output cfg.jpg_quality with
  | (fs1, some err, t1) => (fs1, some err, t1)
  | (fs1, none, t1) =>
    match installAndRestore cfg orc fs1 temp_output input_file output_file with
    | (fs2, e2, t2) => (fs2, e2, t1 ++ t2)

/-- Result of one Python call: a returned value or an uncaught
exception propagating to the caller. -/
inductive PyResult (α : Type) where
  | ok (a : α)
  | raised (e : PyError)
deriving DecidableEq

/-- process_file (lines 157-197): dispatch on the lower-cased filename
suffix; probe and conditionally re-encode .mp4, always re-encode
.jpg/.jpeg, skip .png and everything else; only CalledProcessError is
caught (turning the result into the initial action SKIPPED), every
other exception propagates. Returns the final filesystem, the Python
return value (input path, action, lower-cased extension) or the
uncaught exception, and the event trace. -/
def process_file (cfg : Cfg) (orc : Oracle) (fs : Fs) (input_file : String) :
    Fs × PyResult (String × String × String) × List Event :=
  if pyEndsWith (pyLower input_file) ".mp4" then
    if get_video_bitrate orc.probeOut > cfg.video_bitrate then
      match videoJob cfg orc fs input_file
          ((splitext input_file).1 ++ "_temp" ++ (splitext input_file).2)
          (if cfg.replace_original then input_file
           else pathJoin cfg.output_dir (pyBasename input_file)) with
      | (fs1, none, t) =>
          (fs1, PyResult.ok (input_file, "OK", pyLower (splitext input_file).2),
           Event.probe input_file (get_video_bitrate orc.probeOut) :: t)
      | (fs1, some PyError.calledProcessError, t) =>
          (fs1, PyResult.ok (input_file, "SKIPPED", pyLower (splitext input_file).2),
           Event.probe input_file (get_video_bitrate orc.probeOut) :: t)
      | (fs1, some PyError.osError, t) =>
          (fs1, PyResult.raised PyError.osError,
           Event.probe input_file (get_video_bitrate orc.probeOut) :: t)
    else
      (fs, PyResult.ok (input_file, "SKIPPED", pyLower (splitext input_file).2),
       [Event.probe input_file (get_video_bitrate orc.probeOut)])
  else if pyEndsWith (pyLower input_file) ".jpg" || pyEndsWith (pyLower input_file) ".jpeg" then
    match imageJob cfg orc fs input_file
        ((splitext input_file).1 ++ "_temp" ++ (splitext input_file).2)
        (if cfg.replace_original then input_file
         else pathJoin cfg.output_dir (pyBasename input_file)) with
    | (fs1, none, t) =>
        (fs1, PyResult.ok (input_file, "OK", pyLower (splitext input_file).2), t)
    | (fs1, some PyError.calledProcessError, t) =>
        (fs1, PyResult.ok (input_file, "SKIPPED", pyLower (splitext input_file).2), t)
    | (fs1, some PyError.osError, t) =>
        (fs1, PyResult.raised PyError.osError, t)
  else if pyEndsWith (pyLower input_file) ".png" then
    (fs, PyResult.ok (input_file, "SKIPPED", pyLower (splitext input_file).2), [])
  else
    (fs, PyResult.ok (input_file, "SKIPPED", pyLower (splitext input_file).2), [])

/-- The configuration values collected by the prompt block
(compress_media.py lines 254-267). -/
structure Config where
  root_directory : String
  video_bitrate : Int
  audio_bitrate : Int
  jpg_quality : Int
  replace_original : Bool
deriving DecidableEq

/-- The raw strings the user types at the five prompts of the block. -/
structure Prompts where
  root : String
  vbr : String
  abr : String
  jpgq : String
  replace : String

/-- Model of int(rawInput or default): an empty reply is falsy and
yields the default, otherwise int() parses the reply. -/
def orDefaultInt (s : String) (d : Int) : Option Int :=
  if s = "" then some d else pyInt s

/-- The defaults the except ValueError handler assigns (lines 262-267). -/
def defaultConfig (cwd : String) : Config :=
  { root_directory := cwd, video_bitrate := 3000, audio_bitrate := 192,
    jpg_quality := 7, replace_original := true }

/-- The reply that decides replace_original: stripped, lower-cased,
empty defaulting to yes (lines 259-260). -/
def replaceFlag (s : String) : Bool :=
  (if pyStrip (pyLower s) = "" then "yes" else pyStrip (pyLower s)) = "yes"

/-- The prompt block (lines 254-267): the five prompts run inside one
try; the first int() that raises ValueError sends control to the
handler, which overwrites every collected value with its default. -/
def readConfig (cwd : String) (p : Prompts) : Config :=
  match orDefaultInt p.vbr 3000 with
  | none => defaultConfig cwd
  | some v =>
    match orDefaultInt p.abr 192 with
    | none => defaultConfig cwd
    | some a =>
      match orDefaultInt p.jpgq 7 with
      | none => defaultConfig cwd
      | some q =>
        { root_directory := if pyStrip p.root = "" then cwd else pyStrip p.root,
          video_bitrate := v, audio_bitrate := a, jpg_quality := q,
          replace_original := replaceFlag p.replace }

/-- The summary dict initialisation (line 310). -/
def initSummary : List (String × Nat) :=
  [(".jpg", 0), (".jpeg", 0), (".png", 0), (".mp4", 0)]

/-- One aggregator update (line 326):
summary[ext] = summary.get(ext, 0) + 1. -/
def bump : List (String × Nat) → String → List (String × Nat)
  | [], e => [(e, 1)]
  | kv :: rest, e => if kv.1 = e then (kv.1, kv.2 + 1) :: rest else kv :: bump rest e

/-- Total of all counts held in a summary. -/
def sumCounts (s : List (String × Nat)) : Nat :=
  (s.map Prod.snd).sum

/-- The extension under which a file's outcome is counted
(line 197): splitext extension, lower-cased. -/
def outcomeExt (f : String) : String :=
  pyLower (splitext f).2

/-- The aggregation loop (lines 321-329): each completed future bumps
the summary once, in completion order. -/
def runSummary (completionOrder : List String) : List (String × Nat) :=
  completionOrder.foldl bump initSummary

/-- Start and finish of one submitted work item, as observed on the
thread pool. -/
inductive SchedEvent where
  | start (i : Nat)
  | finish (i : Nat)
deriving DecidableEq

/-- Number of in-flight work items after a sequence of events. -/
def inFlightAfter (evs : List SchedEvent) : Int :=
  evs.foldl (fun n e => match e with
    | SchedEvent.start _ => n + 1
    | SchedEvent.finish _ => n - 1) 0

/-- The worker bound the run passes to ThreadPoolExecutor (line 315):
max_workers = batch_size, with no dependence on the acceleration mode. -/
def executor_max_workers (acceleration : String) (batch_size : Nat) : Nat :=
  batch_size

/-- The schedules ThreadPoolExecutor(max_workers =
executor_max_workers acceleration batch_size) can produce: at no prefix
do more than that many work items run simultaneously. -/
def validPoolTrace (acceleration : String) (batch_size : Nat) (evs : List SchedEvent) : Prop :=
  ∀ k ∈ List.range (evs.length + 1),
    inFlightAfter (evs.take k) ≤ (executor_max_workers acceleration batch_size : Int)

/-- A schedule with two work items overlapping in time. -/
def twoOverlap : List SchedEvent :=
  [SchedEvent.start 0, SchedEvent.start 1, SchedEvent.finish 0, SchedEvent.finish 1]

/-- A pre-run original file with distinctive timestamps. -/
def fdOrig : FileData :=
  { content := Content.orig 0, tags := Content.orig 0,
    times := { ctime := 100, mtime := 101, atime := 102 } }

/-- A filesystem holding one original video. -/
def fsDemo : Fs := [("root/a.mp4", fdOrig)]

/-- A filesystem holding one original jpg image. -/
def fsJpg : Fs := [("root/b.jpg", fdOrig)]

/-- A replace-original configuration with the default thresholds. -/
def cfgReplace : Cfg :=
  { replace_original := true, output_dir := "root/Compressed",
    video_bitrate := 3000, audio_bitrate := 192, jpg_quality := 7,
    acceleration := "cpu" }

/-- An oracle where the probe reports 5000000 bits per second and every
external step succeeds; freshly written files get timestamps 200-202. -/
def orcOk : Oracle :=
  { probeOut := some "5000000", encodeResult := ProcResult.ok,
    exiftoolResult := ProcResult.ok, installOk := true,
    now := { ctime := 200, mtime := 201, atime := 202 } }

/-- Looking up the path just written returns the written data. -/
theorem fsGet_fsSet_self (fs : Fs) (p : String) (d : FileData) :
    fsGet (fsSet fs p d) p = some d := by
  induction fs with
  | nil => simp [fsGet, fsSet]
  | cons e rest ih =>
    by_cases h : e.1 = p <;> simp [fsGet, fsSet, h, ih]

/-- Writing one path leaves every other path unchanged. -/
theorem fsGet_fsSet_ne (fs : Fs) (p q : String) (d : FileData) (h : q ≠ p) :
    fsGet (fsSet fs q d) p = fsGet fs p := by
  induction fs with
  | nil => simp [fsGet, fsSet, h]
  | cons e rest ih =>
    by_cases he : e.1 = q <;> simp [fsGet, fsSet, he, h, ih]

/-- Concatenating String.mk values concatenates their data. -/
theorem string_mk_append (a b : List Char) :
    String.mk a ++ String.mk b = String.mk (a ++ b) := rfl

/-- A string rebuilt from its data is itself. -/
theorem string_mk_data (s : String) : String.mk s.data = s := rfl

/-- Appending the empty string is the identity. -/
theorem string_append_nil (s : String) : s ++ "" = s := by
  cases s with
  | mk d =>
    show String.mk (d ++ []) = String.mk d
    rw [List.append_nil]

/-- splitLastSep splits its input into two pieces of it. -/
theorem splitLastSep_append (l : List Char) :
    (splitLastSep l).1 ++ (splitLastSep l).2 = l := by
  induction l with
  | nil => rfl
  | cons c cs ih =>
    by_cases h : cs.any isSep = true
    · simp [splitLastSep, h, ih]
    · by_cases h2 : isSep c = true <;> simp [splitLastSep, h, h2]

/-- splitAtLastDot splits its input into two pieces of it. -/
theorem splitAtLastDot_append (l : List Char) (p : List Char × List Char)
    (h : splitAtLastDot l = some p) : p.1 ++ p.2 = l := by
  induction l generalizing p with
  | nil => simp [splitAtLastDot] at h
  | cons c cs ih =>
    simp only [splitAtLastDot] at h
    cases hr : splitAtLastDot cs with
    | some q =>
      rw [hr] at h
      simp only [Option.some.injEq] at h
      subst h
      simp [ih q hr]
    | none =>
      rw [hr] at h
      by_cases hc : (c == '.') = true
      · rw [if_pos hc] at h
        simp only [Option.some.injEq] at h
        subst h
        simp
      · rw [if_neg hc] at h
        exact absurd h (by simp)

/-- The root and extension returned by splitext concatenate back to the
whole path. -/
theorem splitext_append (s : String) : (splitext s).1 ++ (splitext s).2 = s := by
  unfold splitext
  cases hd : splitAtLastDot ((splitLastSep s.data).2.dropWhile (fun c => c == '.')) with
  | none => exact string_append_nil s
  | some p =>
    simp only
    rw [string_mk_append]
    have h1 := splitAtLastDot_append _ p hd
    have h2 := splitLastSep_append s.data
    have h3 := List.takeWhile_append_dropWhile
      (p := fun c => c == '.') (l := (splitLastSep s.data).2)
    have : ((splitLastSep s.data).1 ++
        (splitLastSep s.data).2.takeWhile (fun c => c == '.') ++ p.1) ++ p.2 = s.data := by
      rw [List.append_assoc, List.append_assoc, h1, h3, h2]
    rw [this, string_mk_data]

/-- String length distributes over append. -/
theorem string_length_append (a b : String) :
    (a ++ b).length = a.length + b.length := by
  cases a with
  | mk da =>
    cases b with
    | mk db =>
      show (String.mk (da ++ db)).length = _
      simp [String.length]

/-- The temporary output path built by process_file differs from the
input path: it is five characters longer. -/
theorem temp_output_ne (s : String) :
    (splitext s).1 ++ "_temp" ++ (splitext s).2 ≠ s := by
  intro h
  have hlen := congrArg String.length h
  have hs := congrArg String.length (splitext_append s)
  have h5 : ("_temp" : String).length = 5 := rfl
  rw [string_length_append, string_length_append, h5] at hlen
  rw [string_length_append] at hs
  omega

/-- pyEndsWith unfolded to a propositional equality on character data. -/
theorem pyEndsWith_iff (s suffix : String) :
    pyEndsWith s suffix = true ↔
      s.data.drop (s.data.length - suffix.data.length) = suffix.data := by
  simp [pyEndsWith]

/-- A name ending in .jpg does not end in .mp4. -/
theorem jpg_not_mp4 (s : String) (h : pyEndsWith s ".jpg" = true) :
    pyEndsWith s ".mp4" = false := by
  by_contra hc
  rw [Bool.not_eq_false, pyEndsWith_iff] at hc
  rw [pyEndsWith_iff] at h
  have h4 : (".jpg" : String).data.length = 4 := rfl
  have h4m : (".mp4" : String).data.length = 4 := rfl
  rw [h4] at h
  rw [h4m] at hc
  rw [h] at hc
  exact absurd hc (by decide)

/-- A name ending in .jpeg does not end in .mp4. -/
theorem jpeg_not_mp4 (s : String) (h : pyEndsWith s ".jpeg" = true) :
    pyEndsWith s ".mp4" = false := by
  by_contra hc
  rw [Bool.not_eq_false, pyEndsWith_iff] at hc
  rw [pyEndsWith_iff] at h
  have h5 : (".jpeg" : String).data.length = 5 := rfl
  have h4 : (".mp4" : String).data.length = 4 := rfl
  rw [h5] at h
  rw [h4] at hc
  have hlen : (s.data.drop (s.data.length - 5)).length = 5 := by
    rw [h]; rfl
  have hge : 5 ≤ s.data.length := by
    rw [List.length_drop] at hlen
    omega
  have hdd : s.data.drop (s.data.length - 4) = (s.data.drop (s.data.length - 5)).drop 1 := by
    rw [List.drop_drop]
    congr 1
    omega
  rw [h, hc] at hdd
  exact absurd hdd (by decide)

/-- The trace of one compress_video call is exactly its encoder
invocation event, whatever the outcome. -/
theorem compress_video_trace (orc : Oracle) (fs : Fs) (i t : String)
    (vb ab : Int) (a : String) :
    (compress_video orc fs i t vb ab a).2.2 =
      [Event.encodeVideo i t (codecFor a).1] := by
  unfold compress_video
  cases orc.encodeResult with
  | ok => cases fsGet fs i <;> rfl
  | exitNonzero => rfl
  | launchFail => rfl

/-- The trace of one ffmpeg_image call is exactly its encoder
invocation event, whatever the outcome. -/
theorem ffmpeg_image_trace (orc : Oracle) (fs : Fs) (i t : String) (q : Int) :
    (ffmpeg_image orc fs i t q).2.2 = [Event.encodeImage i t q] := by
  unfold ffmpeg_image
  cases orc.encodeResult with
  | ok => cases fsGet fs i <;> rfl
  | exitNonzero => rfl
  | launchFail => rfl

/-- compress_video only writes the temp path: lookups elsewhere are
unchanged. -/
theorem compress_video_fsGet (orc : Oracle) (fs : Fs) (i t : String)
    (vb ab : Int) (a p : String) (hp : p ≠ t) :
    fsGet (compress_video orc fs i t vb ab a).1 p = fsGet fs p := by
  unfold compress_video
  cases orc.encodeResult with
  | ok =>
    cases fsGet fs i with
    | some fd => exact fsGet_fsSet_ne fs p t _ (Ne.symm hp)
    | none => rfl
  | exitNonzero => rfl
  | launchFail => rfl

/-- ffmpeg_image only writes the temp path: lookups elsewhere are
unchanged. -/
theorem ffmpeg_image_fsGet (orc : Oracle) (fs : Fs) (i t : String)
    (q : Int) (p : String) (hp : p ≠ t) :
    fsGet (ffmpeg_image orc fs i t q).1 p = fsGet fs p := by
  unfold ffmpeg_image
  cases orc.encodeResult with
  | ok =>
    cases fsGet fs i with
    | some fd => exact fsGet_fsSet_ne fs p t _ (Ne.symm hp)
    | none => rfl
  | exitNonzero => rfl
  | launchFail => rfl

/-- Any copyTags event a copy_metadata call emits records the pair of
paths it was called with and the content then present at the source
path. -/
theorem copy_metadata_copyTags (orc : Oracle) (fs : Fs) (i o s d : String)
    (c : Content)
    (h : Event.copyTags s d c ∈ (copy_metadata orc fs i o).2.2) :
    s = i ∧ d = o ∧ ∃ fd, fsGet fs i = some fd ∧ c = fd.content := by
  unfold copy_metadata at h
  revert h
  cases orc.exiftoolResult with
  | ok =>
    cases hg : fsGet fs i with
    | some srcFd =>
      cases hg2 : fsGet fs o with
      | some dstFd =>
        intro h
        simp only [List.mem_singleton, Event.copyTags.injEq] at h
        exact ⟨h.1, h.2.1, srcFd, rfl, h.2.2⟩
      | none =>
        intro h
        simp at h
    | none =>
      intro h
      simp at h
  | exitNonzero =>
    intro h
    simp at h
  | launchFail =>
    intro h
    simp at h

/-- os.replace emits no copyTags event. -/
theorem osReplace_no_copyTags (orc : Oracle) (fs : Fs) (a b s d : String)
    (c : Content) : Event.copyTags s d c ∉ (osReplace orc fs a b).2.2 := by
  unfold osReplace
  by_cases hi : orc.installOk
  · rw [if_pos hi]
    cases fsGet fs a <;> simp
  · rw [if_neg hi]
    simp

/-- os.rename emits no copyTags event. -/
theorem osRename_no_copyTags (orc : Oracle) (fs : Fs) (a b s d : String)
    (c : Content) : Event.copyTags s d c ∉ (osRename orc fs a b).2.2 := by
  unfold osRename
  by_cases hi : orc.installOk
  · rw [if_pos hi]
    cases fsGet fs a with
    | some fd => cases fsGet fs b <;> simp
    | none => simp
  · rw [if_neg hi]
    simp

/-- preserve_file_timestamps emits no copyTags event. -/
theorem preserve_no_copyTags (fs : Fs) (a b s d : String) (c : Content) :
    Event.copyTags s d c ∉ (preserve_file_timestamps fs a b).2 := by
  unfold preserve_file_timestamps
  cases fsGet fs a with
  | some sfd => cases fsGet fs b <;> simp
  | none => cases fsGet fs b <;> simp

/-- The install-and-restore tail emits no copyTags event. -/
theorem installAndRestore_no_copyTags (cfg : Cfg) (orc : Oracle) (fs : Fs)
    (t i o s d : String) (c : Content) :
    Event.copyTags s d c ∉ (installAndRestore cfg orc fs t i o).2.2 := by
  intro h
  unfold installAndRestore at h
  rcases hir : (if cfg.replace_original then osReplace orc fs t i
                else osRename orc fs t o) with ⟨fs1, e1, t1⟩
  rw [hir] at h
  have ht1 : Event.copyTags s d c ∉ t1 := by
    by_cases hr : cfg.replace_original
    · rw [if_pos hr] at hir
      have := osReplace_no_copyTags orc fs t i s d c
      rw [hir] at this
      exact this
    · rw [if_neg hr] at hir
      have := osRename_no_copyTags orc fs t o s d c
      rw [hir] at this
      exact this
  cases e1 with
  | some err => exact ht1 h
  | none =>
    dsimp only at h
    rcases hp : preserve_file_timestamps fs1 i o with ⟨fs2, t2⟩
    rw [hp] at h
    simp only [List.mem_append] at h
    rcases h with h | h
    · exact ht1 h
    · have := preserve_no_copyTags fs1 i o s d c
      rw [hp] at this
      exact this h

/-- Any copyTags event of compress_and_preserve_metadata reads the
content present at the input path when the call starts, provided the
temp path differs from the input path. -/
theorem capm_copyTags (cfg : Cfg) (orc : Oracle) (fs : Fs) (f temp s d : String)
    (c : Content) (hne : f ≠ temp)
    (hmem : Event.copyTags s d c ∈
      (compress_and_preserve_metadata cfg orc fs f temp).2.2) :
    s = f ∧ ∃ fd, fsGet fs f = some fd ∧ c = fd.content := by
  unfold compress_and_preserve_metadata at hmem
  rcases hcv : compress_video orc fs f temp
      cfg.video_bitrate cfg.audio_bitrate cfg.acceleration with ⟨fs1, e1, t1⟩
  rw [hcv] at hmem
  have ht1 : t1 = [Event.encodeVideo f temp (codecFor cfg.acceleration).1] := by
    have := compress_video_trace orc fs f temp
      cfg.video_bitrate cfg.audio_bitrate cfg.acceleration
    rw [hcv] at this
    exact this
  cases e1 with
  | some err =>
    dsimp only at hmem
    rw [ht1] at hmem
    simp at hmem
  | none =>
    dsimp only at hmem
    rcases hcmd : copy_metadata orc fs1 f temp with ⟨fs2, e2, t2⟩
    rw [hcmd] at hmem
    dsimp only at hmem
    rw [ht1] at hmem
    simp only [List.mem_append, List.mem_singleton] at hmem
    rcases hmem with hmem | hmem
    · exact absurd hmem (by simp)
    · have ht2 : Event.copyTags s d c ∈ (copy_metadata orc fs1 f temp).2.2 := by
        rw [hcmd]
        exact hmem
      obtain ⟨hs, _, fd1, hget, hc⟩ := copy_metadata_copyTags orc fs1 f temp s d c ht2
      have hfs1 : fsGet fs1 f = fsGet fs f := by
        have := compress_video_fsGet orc fs f temp
          cfg.video_bitrate cfg.audio_bitrate cfg.acceleration f hne
        rw [hcv] at this
        exact this
      rw [hfs1] at hget
      exact ⟨hs, fd1, hget, hc⟩

/-- Any copyTags event of compress_image reads the content present at
the input path when the call starts, provided the temp path differs
from the input path. -/
theorem capi_copyTags (orc : Oracle) (fs : Fs) (f temp : String) (q : Int)
    (s d : String) (c : Content) (hne : f ≠ temp)
    (hmem : Event.copyTags s d c ∈ (compress_image orc fs f temp q).2.2) :
    s = f ∧ ∃ fd, fsGet fs f = some fd ∧ c = fd.content := by
  unfold compress_image at hmem
  rcases hcv : ffmpeg_image orc fs f temp q with ⟨fs1, e1, t1⟩
  rw [hcv] at hmem
  have ht1 : t1 = [Event.encodeImage f temp q] := by
    have := ffmpeg_image_trace orc fs f temp q
    rw [hcv] at this
    exact this
  cases e1 with
  | some err =>
    dsimp only at hmem
    rw [ht1] at hmem
    simp at hmem
  | none =>
    dsimp only at hmem
    rcases hcmd : copy_metadata orc fs1 f temp with ⟨fs2, e2, t2⟩
    rw [hcmd] at hmem
    dsimp only at hmem
    rw [ht1] at hmem
    simp only [List.mem_append, List.mem_singleton] at hmem
    rcases hmem with hmem | hmem
    · exact absurd hmem (by simp)
    · have ht2 : Event.copyTags s d c ∈ (copy_metadata orc fs1 f temp).2.2 := by
        rw [hcmd]
        exact hmem
      obtain ⟨hs, _, fd1, hget, hc⟩ := copy_metadata_copyTags orc fs1 f temp s d c ht2
      have hfs1 : fsGet fs1 f = fsGet fs f := by
        have := ffmpeg_image_fsGet orc fs f temp q f hne
        rw [hcv] at this
        exact this
      rw [hfs1] at hget
      exact ⟨hs, fd1, hget, hc⟩

/-- Any copyTags event of the video path reads the content present at
the input path when the path starts. -/
theorem videoJob_copyTags (cfg : Cfg) (orc : Oracle) (fs : Fs)
    (f temp out s d : String) (c : Content) (hne : f ≠ temp)
    (hmem : Event.copyTags s d c ∈ (videoJob cfg orc fs f temp out).2.2) :
    s = f ∧ ∃ fd, fsGet fs f = some fd ∧ c = fd.content := by
  unfold videoJob at hmem
  rcases hcm : compress_and_preserve_metadata cfg orc fs f temp with ⟨fs1, e1, t1⟩
  rw [hcm] at hmem
  have hback : ∀ hx : Event.copyTags s d c ∈ t1,
      s = f ∧ ∃ fd, fsGet fs f = some fd ∧ c = fd.content := by
    intro hx
    apply capm_copyTags cfg orc fs f temp s d c hne
    rw [hcm]
    exact hx
  cases e1 with
  | some err =>
    dsimp only at hmem
    exact hback hmem
  | none =>
    dsimp only at hmem
    rcases hir : installAndRestore cfg orc fs1 temp f out with ⟨fs2, e2, t2⟩
    rw [hir] at hmem
    dsimp only at hmem
    simp only [List.mem_append] at hmem
    rcases hmem with hmem | hmem
    · exact hback hmem
    · have := installAndRestore_no_copyTags cfg orc fs1 temp f out s d c
      rw [hir] at this
      exact absurd hmem this

/-- Any copyTags event of the image path reads the content present at
the input path when the path starts. -/
theorem imageJob_copyTags (cfg : Cfg) (orc : Oracle) (fs : Fs)
    (f temp out s d : String) (c : Content) (hne : f ≠ temp)
    (hmem : Event.copyTags s d c ∈ (imageJob cfg orc fs f temp out).2.2) :
    s = f ∧ ∃ fd, fsGet fs f = some fd ∧ c = fd.content := by
  unfold imageJob at hmem
  rcases hcm : compress_image orc fs f temp cfg.jpg_quality with ⟨fs1, e1, t1⟩
  rw [hcm] at hmem
  have hback : ∀ hx : Event.copyTags s d c ∈ t1,
      s = f ∧ ∃ fd, fsGet fs f = some fd ∧ c = fd.content := by
    intro hx
    apply capi_copyTags orc fs f temp cfg.jpg_quality s d c hne
    rw [hcm]
    exact hx
  cases e1 with
  | some err =>
    dsimp only at hmem
    exact hback hmem
  | none =>
    dsimp only at hmem
    rcases hir : installAndRestore cfg orc fs1 temp f out with ⟨fs2, e2, t2⟩
    rw [hir] at hmem
    dsimp only at hmem
    simp only [List.mem_append] at hmem
    rcases hmem with hmem | hmem
    · exact hback hmem
    · have := installAndRestore_no_copyTags cfg orc fs1 temp f out s d c
      rw [hir] at this
      exact absurd hmem this


/-- compress_and_preserve_metadata always has the encoder invocation
event in its trace. -/
theorem capm_has_encode (cfg : Cfg) (orc : Oracle) (fs : Fs) (f temp : String) :
    Event.encodeVideo f temp (codecFor cfg.acceleration).1 ∈
      (compress_and_preserve_metadata cfg orc fs f temp).2.2 := by
  unfold compress_and_preserve_metadata
  rcases hcv : compress_video orc fs f temp
      cfg.video_bitrate cfg.audio_bitrate cfg.acceleration with ⟨fs0, e0, t0⟩
  have ht0 : t0 = [Event.encodeVideo f temp (codecFor cfg.acceleration).1] := by
    have := compress_video_trace orc fs f temp
      cfg.video_bitrate cfg.audio_bitrate cfg.acceleration
    rw [hcv] at this
    exact this
  cases e0 with
  | some err =>
    dsimp only
    rw [ht0]
    simp
  | none =>
    dsimp only
    rcases hcmd : copy_metadata orc fs0 f temp with ⟨fs2, e2, t2⟩
    dsimp only
    rw [ht0]
    simp

/-- The video path's trace always contains the encoder invocation
event: the invocation is attempted whenever the path runs. -/
theorem videoJob_has_encode (cfg : Cfg) (orc : Oracle) (fs : Fs)
    (f temp out : String) :
    Event.encodeVideo f temp (codecFor cfg.acceleration).1 ∈
      (videoJob cfg orc fs f temp out).2.2 := by
  unfold videoJob
  rcases hcm : compress_and_preserve_metadata cfg orc fs f temp with ⟨fs1, e1, t1⟩
  have ht1 : Event.encodeVideo f temp (codecFor cfg.acceleration).1 ∈ t1 := by
    have := capm_has_encode cfg orc fs f temp
    rw [hcm] at this
    exact this
  cases e1 with
  | some err =>
    dsimp only
    exact ht1
  | none =>
    dsimp only
    rcases hir : installAndRestore cfg orc fs1 temp f out with ⟨fs2, e2, t2⟩
    dsimp only
    simp only [List.mem_append]
    exact Or.inl ht1

/-- C5: for every file that is re-encoded (video or image), the
metadata tag-copy step reads its tag source from the true original
content: any copyTags event emitted during process_file observes, at
the tag-source path, exactly the content the input file had before the
call — the copy runs ahead of the rename/replace that installs the
encoded output over the original. -/
theorem copy_metadata_reads_original_content (cfg : Cfg) (orc : Oracle)
    (fs : Fs) (input_file dst : String) (fd : FileData) (c : Content)
    (hfd : fsGet fs input_file = some fd)
    (hmem : Event.copyTags input_file dst c ∈
      (process_file cfg orc fs input_file).2.2) :
    c = fd.content := by
  have hne : input_file ≠ (splitext input_file).1 ++ "_temp" ++ (splitext input_file).2 :=
    Ne.symm (temp_output_ne input_file)
  unfold process_file at hmem
  by_cases hmp4 : pyEndsWith (pyLower input_file) ".mp4" = true
  · rw [if_pos hmp4] at hmem
    by_cases hbr : get_video_bitrate orc.probeOut > cfg.video_bitrate
    · rw [if_pos hbr] at hmem
      rcases hvj : videoJob cfg orc fs input_file
          ((splitext input_file).1 ++ "_temp" ++ (splitext input_file).2)
          (if cfg.replace_original then input_file
           else pathJoin cfg.output_dir (pyBasename input_file)) with ⟨fs1, e1, t1⟩
      rw [hvj] at hmem
      have hmemt : Event.copyTags input_file dst c ∈ t1 := by
        cases e1 with
        | none =>
          dsimp only at hmem
          simp only [List.mem_cons] at hmem
          rcases hmem with hmem | hmem
          · exact absurd hmem (by simp)
          · exact hmem
        | some err =>
          cases err with
          | calledProcessError =>
            dsimp only at hmem
            simp only [List.mem_cons] at hmem
            rcases hmem with hmem | hmem
            · exact absurd hmem (by simp)
            · exact hmem
          | osError =>
            dsimp only at hmem
            simp only [List.mem_cons] at hmem
            rcases hmem with hmem | hmem
            · exact absurd hmem (by simp)
            · exact hmem
      have hmem2 : Event.copyTags input_file dst c ∈
          (videoJob cfg orc fs input_file
            ((splitext input_file).1 ++ "_temp" ++ (splitext input_file).2)
            (if cfg.replace_original then input_file
             else pathJoin cfg.output_dir (pyBasename input_file))).2.2 := by
        rw [hvj]
        exact hmemt
      obtain ⟨_, fd1, hget, hc⟩ := videoJob_copyTags cfg orc fs input_file _ _
        input_file dst c hne hmem2
      rw [hfd] at hget
      rw [hc]
      injection hget with hgot
      rw [hgot]
    · rw [if_neg hbr] at hmem
      simp at hmem
  · rw [if_neg hmp4] at hmem
    by_cases himg : (pyEndsWith (pyLower input_file) ".jpg" ||
        pyEndsWith (pyLower input_file) ".jpeg") = true
    · rw [if_pos himg] at hmem
      rcases hij : imageJob cfg orc fs input_file
          ((splitext input_file).1 ++ "_temp" ++ (splitext input_file).2)
          (if cfg.replace_original then input_file
           else pathJoin cfg.output_dir (pyBasename input_file)) with ⟨fs1, e1, t1⟩
      rw [hij] at hmem
      have hmemt : Event.copyTags input_file dst c ∈ t1 := by
        cases e1 with
        | none => exact hmem
        | some err => cases err <;> exact hmem
      have hmem2 : Event.copyTags input_file dst c ∈
          (imageJob cfg orc fs input_file
            ((splitext input_file).1 ++ "_temp" ++ (splitext input_file).2)
            (if cfg.replace_original then input_file
             else pathJoin cfg.output_dir (pyBasename input_file))).2.2 := by
        rw [hij]
        exact hmemt
      obtain ⟨_, fd1, hget, hc⟩ := imageJob_copyTags cfg orc fs input_file _ _
        input_file dst c hne hmem2
      rw [hfd] at hget
      rw [hc]
      injection hget with hgot
      rw [hgot]
    · rw [if_neg himg] at hmem
      by_cases hpng : pyEndsWith (pyLower input_file) ".png" = true
      · rw [if_pos hpng] at hmem
        simp at hmem
      · rw [if_neg hpng] at hmem
        simp at hmem

/-- C6: for an .mp4 file, the encoder invocation happens iff the probed
kbps strictly exceeds the configured threshold; at or below the
threshold the outcome is SKIPPED and the filesystem is untouched. -/
theorem video_reencode_iff_bitrate_above_threshold (cfg : Cfg) (orc : Oracle)
    (fs : Fs) (f : String) (hmp4 : pyEndsWith (pyLower f) ".mp4" = true) :
    ((∃ t c, Event.encodeVideo f t c ∈ (process_file cfg orc fs f).2.2) ↔
      get_video_bitrate orc.probeOut > cfg.video_bitrate) ∧
    (get_video_bitrate orc.probeOut ≤ cfg.video_bitrate →
      (process_file cfg orc fs f).2.1 =
        PyResult.ok (f, "SKIPPED", pyLower (splitext f).2) ∧
      (process_file cfg orc fs f).1 = fs) := by
  unfold process_file
  rw [if_pos hmp4]
  by_cases hbr : get_video_bitrate orc.probeOut > cfg.video_bitrate
  · rw [if_pos hbr]
    constructor
    · constructor
      · intro _
        exact hbr
      · intro _
        rcases hvj : videoJob cfg orc fs f
            ((splitext f).1 ++ "_temp" ++ (splitext f).2)
            (if cfg.replace_original then f
             else pathJoin cfg.output_dir (pyBasename f)) with ⟨fs1, e1, t1⟩
        have ht1 : Event.encodeVideo f
            ((splitext f).1 ++ "_temp" ++ (splitext f).2)
            (codecFor cfg.acceleration).1 ∈ t1 := by
          have := videoJob_has_encode cfg orc fs f
            ((splitext f).1 ++ "_temp" ++ (splitext f).2)
            (if cfg.replace_original then f
             else pathJoin cfg.output_dir (pyBasename f))
          rw [hvj] at this
          exact this
        refine ⟨(splitext f).1 ++ "_temp" ++ (splitext f).2,
          (codecFor cfg.acceleration).1, ?_⟩
        cases e1 with
        | none =>
          dsimp only
          exact List.mem_cons_of_mem _ ht1
        | some err =>
          cases err <;> (dsimp only; exact List.mem_cons_of_mem _ ht1)
    · intro hle
      exact absurd hbr (not_lt.mpr hle)
  · rw [if_neg hbr]
    constructor
    · constructor
      · rintro ⟨t, c, hmem⟩
        exact absurd hmem (by simp)
      · intro h
        exact absurd h hbr
    · intro _
      exact ⟨rfl, rfl⟩

/-- C1: in replace-original mode a successful video re-encode ends with
the installed file carrying the encoder output's timestamps (200-202),
not the pre-run original's (100-102): the timestamp-restore call reads
the already-replaced path, so the original timestamps are lost. -/
theorem process_file_replace_mode_keeps_encoder_timestamps :
    (process_file cfgReplace orcOk fsDemo "root/a.mp4").2.1 =
      PyResult.ok ("root/a.mp4", "OK", ".mp4") ∧
    (fsGet fsDemo "root/a.mp4").map FileData.times =
      some { ctime := 100, mtime := 101, atime := 102 } ∧
    (fsGet (process_file cfgReplace orcOk fsDemo "root/a.mp4").1
        "root/a.mp4").map FileData.times =
      some { ctime := 200, mtime := 201, atime := 202 } ∧
    ({ ctime := 100, mtime := 101, atime := 102 } : Times) ≠
      { ctime := 200, mtime := 201, atime := 202 } := by
  decide

/-- When the image encoder exits non-zero, the image path stops with a
CalledProcessError and no filesystem change. -/
theorem imageJob_exitNonzero (cfg : Cfg) (orc : Oracle) (fs : Fs)
    (f temp out : String) (h : orc.encodeResult = ProcResult.exitNonzero) :
    imageJob cfg orc fs f temp out =
      (fs, some PyError.calledProcessError,
        [Event.encodeImage f temp cfg.jpg_quality]) := by
  unfold imageJob compress_image ffmpeg_image
  rw [h]

/-- When the video encoder exits non-zero, the video path stops with a
CalledProcessError and no filesystem change. -/
theorem videoJob_exitNonzero (cfg : Cfg) (orc : Oracle) (fs : Fs)
    (f temp out : String) (h : orc.encodeResult = ProcResult.exitNonzero) :
    videoJob cfg orc fs f temp out =
      (fs, some PyError.calledProcessError,
        [Event.encodeVideo f temp (codecFor cfg.acceleration).1]) := by
  unfold videoJob compress_and_preserve_metadata compress_video
  rw [h]

/-- C2 (amended): process_file's returned action is always OK or
SKIPPED — no ERROR outcome exists — and a jpg/jpeg file whose encoder
exits non-zero is recorded as SKIPPED. -/
theorem image_outcomes_ok_or_skipped (cfg : Cfg) (orc : Oracle) (fs : Fs)
    (f : String) :
    (∀ r, (process_file cfg orc fs f).2.1 = PyResult.ok r →
      r.2.1 = "OK" ∨ r.2.1 = "SKIPPED") ∧
    ((pyEndsWith (pyLower f) ".jpg" = true ∨
        pyEndsWith (pyLower f) ".jpeg" = true) →
      orc.encodeResult = ProcResult.exitNonzero →
      (process_file cfg orc fs f).2.1 =
        PyResult.ok (f, "SKIPPED", pyLower (splitext f).2)) := by
  constructor
  · intro r h
    unfold process_file at h
    by_cases hmp4 : pyEndsWith (pyLower f) ".mp4" = true
    · rw [if_pos hmp4] at h
      by_cases hbr : get_video_bitrate orc.probeOut > cfg.video_bitrate
      · rw [if_pos hbr] at h
        rcases hvj : videoJob cfg orc fs f
            ((splitext f).1 ++ "_temp" ++ (splitext f).2)
            (if cfg.replace_original then f
             else pathJoin cfg.output_dir (pyBasename f)) with ⟨fs1, e1, t1⟩
        rw [hvj] at h
        cases e1 with
        | none =>
          dsimp only at h
          simp only [PyResult.ok.injEq] at h
          rw [← h]
          exact Or.inl rfl
        | some err =>
          cases err with
          | calledProcessError =>
            dsimp only at h
            simp only [PyResult.ok.injEq] at h
            rw [← h]
            exact Or.inr rfl
          | osError =>
            dsimp only at h
            exact absurd h (by simp)
      · rw [if_neg hbr] at h
        dsimp only at h
        simp only [PyResult.ok.injEq] at h
        rw [← h]
        exact Or.inr rfl
    · rw [if_neg hmp4] at h
      by_cases himg : (pyEndsWith (pyLower f) ".jpg" ||
          pyEndsWith (pyLower f) ".jpeg") = true
      · rw [if_pos himg] at h
        rcases hij : imageJob cfg orc fs f
            ((splitext f).1 ++ "_temp" ++ (splitext f).2)
            (if cfg.replace_original then f
             else pathJoin cfg.output_dir (pyBasename f)) with ⟨fs1, e1, t1⟩
        rw [hij] at h
        cases e1 with
        | none =>
          dsimp only at h
          simp only [PyResult.ok.injEq] at h
          rw [← h]
          exact Or.inl rfl
        | some err =>
          cases err with
          | calledProcessError =>
            dsimp only at h
            simp only [PyResult.ok.injEq] at h
            rw [← h]
            exact Or.inr rfl
          | osError =>
            dsimp only at h
            exact absurd h (by simp)
      · rw [if_neg himg] at h
        by_cases hpng : pyEndsWith (pyLower f) ".png" = true
        · rw [if_pos hpng] at h
          dsimp only at h
          simp only [PyResult.ok.injEq] at h
          rw [← h]
          exact Or.inr rfl
        · rw [if_neg hpng] at h
          dsimp only at h
          simp only [PyResult.ok.injEq] at h
          rw [← h]
          exact Or.inr rfl
  · intro hjj henc
    have hm : pyEndsWith (pyLower f) ".mp4" = false := by
      rcases hjj with hj | hj
      · exact jpg_not_mp4 _ hj
      · exact jpeg_not_mp4 _ hj
    unfold process_file
    rw [if_neg (by simp [hm])]
    rw [if_pos (by rcases hjj with hj | hj <;> simp [hj])]
    rw [imageJob_exitNonzero cfg orc fs f _ _ henc]

/-- C2 counterexample: a jpg whose encoder invocation exits non-zero is
recorded as SKIPPED, not ERROR — so an image file in scope can be
SKIPPED, and no ERROR outcome is produced. -/
theorem jpg_encoder_failure_yields_skipped_cx :
    (process_file cfgReplace
        { orcOk with encodeResult := ProcResult.exitNonzero }
        fsJpg "root/b.jpg").2.1 =
      PyResult.ok ("root/b.jpg", "SKIPPED", ".jpg") ∧
    (process_file cfgReplace
        { orcOk with encodeResult := ProcResult.exitNonzero }
        fsJpg "root/b.jpg").2.1 ≠
      PyResult.ok ("root/b.jpg", "ERROR", ".jpg") := by
  decide

/-- Witness for the C2 theorem at a concrete jpg file and oracle. -/
theorem image_outcomes_ok_or_skipped_witness :
    (process_file cfgReplace
        { orcOk with encodeResult := ProcResult.exitNonzero }
        fsJpg "root/b.jpg").2.1 =
      PyResult.ok ("root/b.jpg", "SKIPPED", pyLower (splitext "root/b.jpg").2) :=
  (image_outcomes_ok_or_skipped cfgReplace
      { orcOk with encodeResult := ProcResult.exitNonzero }
      fsJpg "root/b.jpg").2 (Or.inl (by decide)) rfl

/-- Successful video encode: explicit result value. -/
theorem compress_video_ok_eq (orc : Oracle) (fs : Fs) (i t : String)
    (vb ab : Int) (a : String) (fd : FileData)
    (h : orc.encodeResult = ProcResult.ok) (hg : fsGet fs i = some fd) :
    compress_video orc fs i t vb ab a =
      (fsSet fs t { content := Content.encVideo fd.content vb ab (codecFor a).1,
                    tags := fd.tags, times := orc.now },
       none, [Event.encodeVideo i t (codecFor a).1]) := by
  unfold compress_video
  rw [h, hg]

/-- copy_metadata never raises unless the ExifTool launch itself
fails: CalledProcessError is caught inside it. -/
theorem copy_metadata_err (orc : Oracle) (fs : Fs) (i o : String)
    (h : orc.exiftoolResult ≠ ProcResult.launchFail) :
    (copy_metadata orc fs i o).2.1 = none := by
  unfold copy_metadata
  cases he : orc.exiftoolResult with
  | ok => cases fsGet fs i <;> cases fsGet fs o <;> rfl
  | exitNonzero => rfl
  | launchFail => exact absurd he h

/-- A failed rename/replace makes the install tail raise OSError with
the filesystem unchanged, in both install modes. -/
theorem installAndRestore_fail (cfg : Cfg) (orc : Oracle) (fs : Fs)
    (t i o : String) (h : orc.installOk = false) :
    installAndRestore cfg orc fs t i o = (fs, some PyError.osError, []) := by
  unfold installAndRestore osReplace osRename
  rw [h]
  cases cfg.replace_original <;> rfl

/-- After a successful encode of a present input and a non-launch-fail
ExifTool call, the encode-and-tag step holds no pending exception. -/
theorem capm_ok (cfg : Cfg) (orc : Oracle) (fs : Fs) (f temp : String)
    (fd : FileData) (henc : orc.encodeResult = ProcResult.ok)
    (hget : fsGet fs f = some fd)
    (hexif : orc.exiftoolResult ≠ ProcResult.launchFail) :
    (compress_and_preserve_metadata cfg orc fs f temp).2.1 = none := by
  unfold compress_and_preserve_metadata
  rw [compress_video_ok_eq orc fs f temp
    cfg.video_bitrate cfg.audio_bitrate cfg.acceleration fd henc hget]
  dsimp only
  rcases hcmd : copy_metadata orc
      (fsSet fs temp
        { content := Content.encVideo fd.content cfg.video_bitrate
            cfg.audio_bitrate (codecFor cfg.acceleration).1,
          tags := fd.tags, times := orc.now }) f temp with ⟨fs2, e2, t2⟩
  dsimp only
  have := copy_metadata_err orc
    (fsSet fs temp
      { content := Content.encVideo fd.content cfg.video_bitrate
          cfg.audio_bitrate (codecFor cfg.acceleration).1,
        tags := fd.tags, times := orc.now }) f temp hexif
  rw [hcmd] at this
  exact this

/-- When the install step fails after a clean encode-and-tag step, the
video path ends with a pending OSError. -/
theorem videoJob_raise_on_install_fail (cfg : Cfg) (orc : Oracle) (fs : Fs)
    (f temp out : String)
    (hcapm : (compress_and_preserve_metadata cfg orc fs f temp).2.1 = none)
    (hinst : orc.installOk = false) :
    (videoJob cfg orc fs f temp out).2.1 = some PyError.osError := by
  unfold videoJob
  rcases hcm : compress_and_preserve_metadata cfg orc fs f temp with ⟨fs1, e1, t1⟩
  rw [hcm] at hcapm
  dsimp only at hcapm
  subst hcapm
  dsimp only
  rw [installAndRestore_fail cfg orc fs1 temp f out hinst]

/-- C3 (amended): an encoder non-zero exit is caught at the
process_file boundary and converted into the outcome SKIPPED, but an
install (rename/replace) failure after a successful encode is not
caught: it escapes process_file as an uncaught OSError, so that
per-file failure does reach the scheduler. -/
theorem per_file_failure_handling (cfg : Cfg) (orc : Oracle) (fs : Fs)
    (f : String) (fd : FileData) :
    (pyEndsWith (pyLower f) ".mp4" = true →
      get_video_bitrate orc.probeOut > cfg.video_bitrate →
      orc.encodeResult = ProcResult.exitNonzero →
      (process_file cfg orc fs f).2.1 =
        PyResult.ok (f, "SKIPPED", pyLower (splitext f).2)) ∧
    (pyEndsWith (pyLower f) ".mp4" = true →
      get_video_bitrate orc.probeOut > cfg.video_bitrate →
      orc.encodeResult = ProcResult.ok →
      orc.exiftoolResult ≠ ProcResult.launchFail →
      fsGet fs f = some fd →
      orc.installOk = false →
      (process_file cfg orc fs f).2.1 = PyResult.raised PyError.osError) := by
  constructor
  · intro hmp4 hbr henc
    unfold process_file
    rw [if_pos hmp4, if_pos hbr, videoJob_exitNonzero cfg orc fs f _ _ henc]
  · intro hmp4 hbr henc hexif hget hinst
    unfold process_file
    rw [if_pos hmp4, if_pos hbr]
    have hcapm := capm_ok cfg orc fs f
      ((splitext f).1 ++ "_temp" ++ (splitext f).2) fd henc hget hexif
    have hvj := videoJob_raise_on_install_fail cfg orc fs f
      ((splitext f).1 ++ "_temp" ++ (splitext f).2)
      (if cfg.replace_original then f
       else pathJoin cfg.output_dir (pyBasename f)) hcapm hinst
    rcases hv : videoJob cfg orc fs f
        ((splitext f).1 ++ "_temp" ++ (splitext f).2)
        (if cfg.replace_original then f
         else pathJoin cfg.output_dir (pyBasename f)) with ⟨fs1, e1, t1⟩
    rw [hv] at hvj
    dsimp only at hvj
    subst hvj
    dsimp only

/-- C3 counterexample: with a present original, probed bitrate above
threshold, a clean encode and a failing os.replace, process_file does
not return an outcome: the OSError propagates out of it. -/
theorem install_failure_propagates_cx :
    (process_file cfgReplace { orcOk with installOk := false }
        fsDemo "root/a.mp4").2.1 = PyResult.raised PyError.osError := by
  decide

/-- Witness for the C3 theorem: both conjuncts applied at concrete
oracles. -/
theorem per_file_failure_handling_witness :
    (process_file cfgReplace
        { orcOk with encodeResult := ProcResult.exitNonzero }
        fsDemo "root/a.mp4").2.1 =
      PyResult.ok ("root/a.mp4", "SKIPPED", pyLower (splitext "root/a.mp4").2) ∧
    (process_file cfgReplace { orcOk with installOk := false }
        fsDemo "root/a.mp4").2.1 = PyResult.raised PyError.osError :=
  ⟨(per_file_failure_handling cfgReplace
      { orcOk with encodeResult := ProcResult.exitNonzero }
      fsDemo "root/a.mp4" fdOrig).1 (by decide) (by decide) rfl,
   (per_file_failure_handling cfgReplace { orcOk with installOk := false }
      fsDemo "root/a.mp4" fdOrig).2 (by decide) (by decide) rfl
      (by decide) (by decide) rfl⟩

/-- Witness for C5 at a concrete run: the observed tag-source content
is the original's. -/
theorem copy_metadata_reads_original_content_witness :
    Content.orig 0 = fdOrig.content :=
  copy_metadata_reads_original_content cfgReplace orcOk fsDemo "root/a.mp4"
    "root/a_temp.mp4" fdOrig (Content.orig 0) (by decide) (by decide)

/-- Witness for C6 at a concrete run: 5000 kbps against a 3000 kbps
threshold triggers the encoder invocation. -/
theorem video_reencode_iff_bitrate_above_threshold_witness :
    ∃ t c, Event.encodeVideo "root/a.mp4" t c ∈
      (process_file cfgReplace orcOk fsDemo "root/a.mp4").2.2 :=
  (video_reencode_iff_bitrate_above_threshold cfgReplace orcOk fsDemo
    "root/a.mp4" (by decide)).1.mpr (by decide)

/-- C4 counterexample: the executor configured for nvidia mode with
batch size 2 admits a schedule with two encoder invocations in flight
at once, refuting strict sequentiality in nvidia mode. -/
theorem nvidia_mode_two_in_flight_cx :
    validPoolTrace "nvidia" 2 twoOverlap ∧
    inFlightAfter (twoOverlap.take 2) = 2 ∧
    ¬ inFlightAfter (twoOverlap.take 2) ≤ 1 := by
  refine ⟨?_, by decide, by decide⟩
  unfold validPoolTrace
  decide

/-- C4 (amended): the scheduler's in-flight bound is the batch size in
every acceleration mode — nvidia included — because the executor is
built with max_workers = batch_size regardless of the mode. -/
theorem pool_bound_is_batch_size (acceleration : String) (batch_size : Nat)
    (evs : List SchedEvent) (h : validPoolTrace acceleration batch_size evs) :
    ∀ k ∈ List.range (evs.length + 1),
      inFlightAfter (evs.take k) ≤ (batch_size : Int) := by
  intro k hk
  have hb := h k hk
  simpa [executor_max_workers] using hb

/-- Witness for the C4 theorem at a concrete schedule. -/
theorem pool_bound_is_batch_size_witness :
    inFlightAfter (twoOverlap.take 2) ≤ ((2 : Nat) : Int) :=
  pool_bound_is_batch_size "cpu" 2 twoOverlap
    (by unfold validPoolTrace; decide) 2 (by decide)

/-- C7 (amended): the probe result is a non-negative integer; it is 0
when the probe raised, and 0 when its stripped output is not a digit
string (covering garbage and a missing field); under a non-negative
threshold a 0 probe yields SKIPPED with the filesystem untouched. A
negative configured threshold defeats the last part. -/
theorem probe_nonneg_and_zero_skips (probeOut : Option String) (cfg : Cfg)
    (orc : Oracle) (fs : Fs) (f : String) :
    0 ≤ get_video_bitrate probeOut ∧
    (probeOut = none → get_video_bitrate probeOut = 0) ∧
    (∀ s, probeOut = some s → pyIsdigit (pyStrip s) = false →
      get_video_bitrate probeOut = 0) ∧
    (pyEndsWith (pyLower f) ".mp4" = true → 0 ≤ cfg.video_bitrate →
      get_video_bitrate orc.probeOut = 0 →
      (process_file cfg orc fs f).2.1 =
        PyResult.ok (f, "SKIPPED", pyLower (splitext f).2) ∧
      (process_file cfg orc fs f).1 = fs) := by
  refine ⟨?_, ?_, ?_, ?_⟩
  · cases probeOut with
    | none => exact le_refl 0
    | some out =>
      unfold get_video_bitrate
      dsimp only
      by_cases h : pyIsdigit (pyStrip out) = true
      · rw [if_pos h]
        omega
      · rw [if_neg h]
  · intro h
    rw [h]
    rfl
  · intro s hs hd
    rw [hs]
    unfold get_video_bitrate
    dsimp only
    rw [if_neg (by simp [hd])]
  · intro hmp4 hth h0
    unfold process_file
    rw [if_pos hmp4]
    rw [if_neg (by rw [h0]; exact not_lt.mpr hth)]
    exact ⟨rfl, rfl⟩

/-- C7 counterexample: with the user-entered threshold -1 (accepted by
int()), a video whose probe returns garbage — hence bitrate 0 — is
re-encoded, because 0 > -1. -/
theorem zero_probe_reencoded_with_negative_threshold_cx :
    get_video_bitrate (some "N/A") = 0 ∧
    (process_file { cfgReplace with video_bitrate := -1 }
        { orcOk with probeOut := some "N/A" } fsDemo "root/a.mp4").2.1 =
      PyResult.ok ("root/a.mp4", "OK", ".mp4") ∧
    Event.encodeVideo "root/a.mp4" "root/a_temp.mp4" "libx265" ∈
      (process_file { cfgReplace with video_bitrate := -1 }
        { orcOk with probeOut := some "N/A" } fsDemo "root/a.mp4").2.2 := by
  decide

/-- Witness for the C7 theorem at a concrete garbage probe output. -/
theorem probe_nonneg_and_zero_skips_witness :
    0 ≤ get_video_bitrate (some "garbage") ∧
    (process_file cfgReplace { orcOk with probeOut := some "garbage" }
        fsDemo "root/a.mp4").2.1 =
      PyResult.ok ("root/a.mp4", "SKIPPED", pyLower (splitext "root/a.mp4").2) := by
  have h := probe_nonneg_and_zero_skips (some "garbage") cfgReplace
    { orcOk with probeOut := some "garbage" } fsDemo "root/a.mp4"
  exact ⟨h.1, (h.2.2.2 (by decide) (by decide) (by decide)).1⟩

/-- One bump adds exactly one to the summary total. -/
theorem sumCounts_bump (s : List (String × Nat)) (e : String) :
    sumCounts (bump s e) = sumCounts s + 1 := by
  induction s with
  | nil => rfl
  | cons kv rest ih =>
    by_cases h : kv.1 = e
    · simp only [bump, if_pos h, sumCounts, List.map_cons, List.sum_cons]
      omega
    · simp only [bump, if_neg h, sumCounts, List.map_cons, List.sum_cons]
      simp only [sumCounts] at ih
      omega

/-- Folding bumps over a list adds its length to the summary total. -/
theorem sumCounts_foldl (l : List String) (s : List (String × Nat)) :
    sumCounts (l.foldl bump s) = sumCounts s + l.length := by
  induction l generalizing s with
  | nil => simp
  | cons e rest ih =>
    simp only [List.foldl_cons, List.length_cons]
    rw [ih (bump s e), sumCounts_bump]
    omega

/-- C8: whatever order outcomes complete in (any permutation of the
discovered files), the summary counts total the number of discovered
files; and every process_file return is tagged with its own file and
that file's lower-cased extension, so each discovered file contributes
exactly one outcome. -/
theorem aggregation_completeness (files order : List String)
    (h : order.Perm files) :
    sumCounts (runSummary (order.map outcomeExt)) = files.length ∧
    (∀ cfg orc fs f r, (process_file cfg orc fs f).2.1 = PyResult.ok r →
      r.1 = f ∧ r.2.2 = outcomeExt f) := by
  constructor
  · have h0 : sumCounts initSummary = 0 := rfl
    rw [runSummary, sumCounts_foldl, h0, List.length_map, h.length_eq,
      Nat.zero_add]
  · intro cfg orc fs f r hr
    unfold process_file at hr
    by_cases hmp4 : pyEndsWith (pyLower f) ".mp4" = true
    · rw [if_pos hmp4] at hr
      by_cases hbr : get_video_bitrate orc.probeOut > cfg.video_bitrate
      · rw [if_pos hbr] at hr
        rcases hvj : videoJob cfg orc fs f
            ((splitext f).1 ++ "_temp" ++ (splitext f).2)
            (if cfg.replace_original then f
             else pathJoin cfg.output_dir (pyBasename f)) with ⟨fs1, e1, t1⟩
        rw [hvj] at hr
        cases e1 with
        | none =>
          dsimp only at hr
          simp only [PyResult.ok.injEq] at hr
          rw [← hr]
          exact ⟨rfl, rfl⟩
        | some err =>
          cases err with
          | calledProcessError =>
            dsimp only at hr
            simp only [PyResult.ok.injEq] at hr
            rw [← hr]
            exact ⟨rfl, rfl⟩
          | osError =>
            dsimp only at hr
            exact absurd hr (by simp)
      · rw [if_neg hbr] at hr
        dsimp only at hr
        simp only [PyResult.ok.injEq] at hr
        rw [← hr]
        exact ⟨rfl, rfl⟩
    · rw [if_neg hmp4] at hr
      by_cases himg : (pyEndsWith (pyLower f) ".jpg" ||
          pyEndsWith (pyLower f) ".jpeg") = true
      · rw [if_pos himg] at hr
        rcases hij : imageJob cfg orc fs f
            ((splitext f).1 ++ "_temp" ++ (splitext f).2)
            (if cfg.replace_original then f
             else pathJoin cfg.output_dir (pyBasename f)) with ⟨fs1, e1, t1⟩
        rw [hij] at hr
        cases e1 with
        | none =>
          dsimp only at hr
          simp only [PyResult.ok.injEq] at hr
          rw [← hr]
          exact ⟨rfl, rfl⟩
        | some err =>
          cases err with
          | calledProcessError =>
            dsimp only at hr
            simp only [PyResult.ok.injEq] at hr
            rw [← hr]
            exact ⟨rfl, rfl⟩
          | osError =>
            dsimp only at hr
            exact absurd hr (by simp)
      · rw [if_neg himg] at hr
        by_cases hpng : pyEndsWith (pyLower f) ".png" = true
        · rw [if_pos hpng] at hr
          dsimp only at hr
          simp only [PyResult.ok.injEq] at hr
          rw [← hr]
          exact ⟨rfl, rfl⟩
        · rw [if_neg hpng] at hr
          dsimp only at hr
          simp only [PyResult.ok.injEq] at hr
          rw [← hr]
          exact ⟨rfl, rfl⟩

/-- Witness for C8 at a two-file run completing in reversed order. -/
theorem aggregation_completeness_witness :
    sumCounts (runSummary
      ((["root/b.jpg", "root/a.mp4"] : List String).map outcomeExt)) = 2 :=
  (aggregation_completeness ["root/a.mp4", "root/b.jpg"]
    ["root/b.jpg", "root/a.mp4"] (by decide)).1

/-- C9: a parse failure at any numeric prompt resets the whole
configuration block to its defaults — the already-entered root
directory and the replace flag included. -/
theorem invalid_numeric_prompt_resets_all_config (cwd : String) (p : Prompts)
    (h : orDefaultInt p.vbr 3000 = none ∨ orDefaultInt p.abr 192 = none ∨
      orDefaultInt p.jpgq 7 = none) :
    readConfig cwd p = defaultConfig cwd := by
  unfold readConfig
  rcases h with h | h | h
  · rw [h]
  · cases hv : orDefaultInt p.vbr 3000 with
    | none => rfl
    | some v => rw [h]
  · cases hv : orDefaultInt p.vbr 3000 with
    | none => rfl
    | some v =>
      cases ha : orDefaultInt p.abr 192 with
      | none => rfl
      | some a => rw [h]

/-- Witness for C9: a non-numeric bitrate reply wipes a previously
entered root directory and a replace=no answer back to the defaults. -/
theorem invalid_numeric_prompt_resets_all_config_witness :
    readConfig "C:/cwd"
      { root := "D:/photos", vbr := "abc", abr := "192", jpgq := "7",
        replace := "no" } = defaultConfig "C:/cwd" :=
  invalid_numeric_prompt_resets_all_config "C:/cwd"
    { root := "D:/photos", vbr := "abc", abr := "192", jpgq := "7",
      replace := "no" } (Or.inl (by decide))

/-- C10: a probed value of b bits per second with 1000T ≤ b ≤ 1000T+999
is reported as exactly T kbps by the floor division, so a video in that
window is skipped against threshold T even when b exceeds 1000T. -/
theorem floor_div_bitrate_window_skipped (T : Int) (s : String) (cfg : Cfg)
    (orc : Oracle) (fs : Fs) (f : String)
    (hmp4 : pyEndsWith (pyLower f) ".mp4" = true)
    (hT : cfg.video_bitrate = T)
    (hout : orc.probeOut = some s)
    (hdig : pyIsdigit (pyStrip s) = true)
    (hlo : 1000 * T ≤ (digitsVal (pyStrip s).data : Int))
    (hhi : (digitsVal (pyStrip s).data : Int) ≤ 1000 * T + 999) :
    get_video_bitrate orc.probeOut = T ∧
    (process_file cfg orc fs f).2.1 =
      PyResult.ok (f, "SKIPPED", pyLower (splitext f).2) := by
  have hbitrate : get_video_bitrate orc.probeOut = T := by
    rw [hout]
    unfold get_video_bitrate
    dsimp only
    rw [if_pos hdig]
    have hdm := Nat.div_add_mod (digitsVal (pyStrip s).data) 1000
    have hmlt : digitsVal (pyStrip s).data % 1000 < 1000 := Nat.mod_lt _ (by omega)
    omega
  refine ⟨hbitrate, ?_⟩
  unfold process_file
  rw [if_pos hmp4]
  rw [if_neg (by rw [hbitrate, hT]; exact lt_irrefl T)]

/-- Witness for C10: 3500 bps lies in the window of threshold 3 kbps,
reports as 3 and is skipped. -/
theorem floor_div_bitrate_window_skipped_witness :
    get_video_bitrate (some "3500") = 3 ∧
    (process_file { cfgReplace with video_bitrate := 3 }
        { orcOk with probeOut := some "3500" } fsDemo "root/a.mp4").2.1 =
      PyResult.ok ("root/a.mp4", "SKIPPED", pyLower (splitext "root/a.mp4").2) :=
  floor_div_bitrate_window_skipped 3 "3500"
    { cfgReplace with video_bitrate := 3 }
    { orcOk with probeOut := some "3500" } fsDemo "root/a.mp4"
    (by decide) rfl rfl (by decide) (by decide) (by decide)
